import Mathlib

/-!
Verification development for the Image-match-finder repository.

This file gives a shallow embedding of the descriptor-cache builder
(src/core/cacher.py), the match searcher (src/core/searcher.py), the
relevant configuration (src/settings.py) and the cache-build entry points
(src/pipeline.py, src/main.py), and proves the specification claims about
candidate selection, per-entry error handling, cache construction and
keypoint serialization.

Modelling conventions:
- decoded images and descriptors are opaque tokens (the engine never
  inspects them, it only passes them to the vision primitives);
- the OpenCV primitives (imread, resize, ORB detectAndCompute, BFMatcher
  knnMatch, findHomography) are a structure of pure functions, quantified
  over in every theorem; knnMatch and detectAndCompute may fail with a
  cv2 error, which is exactly the exception class the Python code
  catches around those calls;
- Python exceptions that the source does not catch (tuple unpacking in
  the ratio-test loop, list indexing) are an explicit Except error
  channel that propagates out of find_match;
- floating point keypoint fields are modelled as rationals: the code
  only copies them, never computes with them.
-/

deriving instance DecidableEq for Except

namespace ImageMatchFinder

/-! ## settings.py -/

/-- settings.py: minimal number of geometrically consistent points. -/
def RANSAC_MIN_INLIERS : Nat := 15

/-- settings.py: maximal number of ORB features per image. -/
def ORB_N_FEATURES : Nat := 2000

/-- settings.py: canonical resize width. -/
def RESIZE_WIDTH : Nat := 800

/-- settings.py: canonical resize height. -/
def RESIZE_HEIGHT : Nat := 800

/-! ## Data model -/

/-- An opaque decoded image (a numpy array in the source). -/
abbrev Img := Nat

/-- An opaque single descriptor row (one row of an ORB descriptor matrix). -/
abbrev Desc := Nat

/-- cv2.KeyPoint as used by the engine: position, scale and orientation
metadata.  The float fields are modelled as rationals since the engine
only ever copies them. -/
structure KeyPoint where
  pt : Rat × Rat
  size : Rat
  angle : Rat
  response : Rat
  octave : Int
  class_id : Int
deriving DecidableEq, Repr

/-- One serialized keypoint record, as produced by keypoints_to_json in
src/core/cacher.py (a Python dict with keys pt, size, angle, response,
octave, class_id). -/
structure KpJson where
  pt : Rat × Rat
  size : Rat
  angle : Rat
  response : Rat
  octave : Int
  class_id : Int
deriving DecidableEq, Repr

/-- cv2.DMatch: indices of the matched query/train descriptors and their
distance. -/
structure DMatch where
  queryIdx : Nat
  trainIdx : Nat
  distance : Rat
deriving DecidableEq, Repr

/-- One cache entry: serialized keypoint data plus the descriptor matrix
(a list of descriptor rows; None is possible in a hand-made cache, the
searcher checks for it). -/
structure Entry where
  kp_data : List KpJson
  des : Option (List Desc)
deriving DecidableEq, Repr

/-- The descriptor cache: a Python dict in insertion order, modelled as an
association list with unique keys maintained by dictInsert. -/
abbrev Cache := List (String × Entry)

/-- The cv2.error exception class: the only exception class the searcher
catches around knnMatch, and the class caught (as part of the generic
Exception) around the per-image work of the builder. -/
inductive CvErr
  | cv
deriving DecidableEq, Repr

/-- Python exceptions that no handler in find_match catches:
valueErrorUnpack is the ValueError raised by unpacking a neighbour list
that does not have exactly two elements, indexError is an out-of-range
list subscript. -/
inductive PyErr
  | valueErrorUnpack
  | indexError
deriving DecidableEq, Repr

/-- The OpenCV vision primitives used by the engine, as pure functions.
imread returns none for an unreadable file (cv2 returns None rather than
raising).  detectAndCompute and knnMatch may raise a cv2 error.
findHomography returns none when estimation fails to produce a mask;
its mask is a list of inlier flags. -/
structure VisionPrims where
  imread : String → Option Img
  resize : Nat → Nat → Img → Img
  detectAndCompute : Nat → Img → Except CvErr (List KeyPoint × Option (List Desc))
  knnMatch : List Desc → List Desc → Except CvErr (List (List DMatch))
  findHomography : List (Rat × Rat) → List (Rat × Rat) → Rat → Option (List Bool)

/-! ## src/core/cacher.py -/

/-- cacher.py keypoints_to_json: convert cv2.KeyPoint objects into a
serializable list of records (a None input gives [], which coincides with
the empty-list case here). -/
def keypoints_to_json (keypoints : List KeyPoint) : List KpJson :=
  keypoints.map fun kp =>
    { pt := kp.pt, size := kp.size, angle := kp.angle, response := kp.response,
      octave := kp.octave, class_id := kp.class_id }

/-- Python dict assignment d[k] = v: replace the value in place if the key
exists, otherwise append the binding at the end (insertion order). -/
def dictInsert (d : Cache) (k : String) (v : Entry) : Cache :=
  if (d.lookup k).isSome then
    d.map fun kv => if kv.1 = k then (k, v) else kv
  else
    d ++ [(k, v)]

/-- The per-image body of the builder loop in create_and_save_cache:
imread (None means skip), resize, detectAndCompute (the surrounding
try/except turns any error into a skip), and the final guard
"des is not None and len(des) > 0" deciding whether the entry is stored.
Returns the entry to store, or none when the image is skipped. -/
def processImage (prims : VisionPrims) (path : String) : Option Entry :=
  match prims.imread path with
  | none => none
  | some img =>
    match prims.detectAndCompute ORB_N_FEATURES (prims.resize RESIZE_WIDTH RESIZE_HEIGHT img) with
    | .error _ => none
    | .ok (kp, des) =>
      match des with
      | none => none
      | some d => if 0 < d.length then some ⟨keypoints_to_json kp, some d⟩ else none

/-- One iteration of the builder loop acting on the accumulated dict. -/
def buildStep (prims : VisionPrims) (d : Cache) (path : String) : Cache :=
  match processImage prims path with
  | some e => dictInsert d path e
  | none => d

/-- Observable events of one builder run: per-image processing and the
final whole-cache write (pickle.dump of the complete dict). -/
inductive BuildEv
  | imageProcessed (path : String)
  | cacheWritten (c : Cache)
deriving DecidableEq, Repr

/-- Whether a build event is a write of the cache artifact. -/
def BuildEv.isWrite : BuildEv → Bool
  | .imageProcessed _ => false
  | .cacheWritten _ => true

/-- cacher.py DescriptorCacher.create_and_save_cache: fold the per-image
step over all image paths accumulating the dict and the event trace, then
perform the single whole-file write of the completed dict.  Returns the
final dict together with the trace. -/
def create_and_save_cache (prims : VisionPrims) (image_paths : List String) :
    Cache × List BuildEv :=
  let st := image_paths.foldl
    (fun acc p => (buildStep prims acc.1 p, acc.2 ++ [BuildEv.imageProcessed p]))
    ([], [])
  (st.1, st.2 ++ [BuildEv.cacheWritten st.1])

/-- pipeline.py _build_descriptor_cache and main.py build_descriptor_cache:
given the collected Group 2 image paths, refuse to run on an empty set
(return False, nothing written), otherwise run the cacher and report
success.  The event trace of the run is returned for observability. -/
def build_descriptor_cache (prims : VisionPrims) (group2_paths : List String) :
    Bool × List BuildEv :=
  if group2_paths.isEmpty then (false, [])
  else (true, (create_and_save_cache prims group2_paths).2)

/-! ## src/core/searcher.py -/

/-- searcher.py json_to_keypoints: recreate cv2.KeyPoint objects from the
serialized records (with the early return for an empty input). -/
def json_to_keypoints (kp_data : List KpJson) : List KeyPoint :=
  match kp_data with
  | [] => []
  | l => l.map fun p =>
      { pt := p.pt, size := p.size, angle := p.angle, response := p.response,
        octave := p.octave, class_id := p.class_id }

/-- The ratio-test loop of find_match: for each (m, n) neighbour pair keep
m when m.distance < 0.75 * n.distance.  (The source also tests the
truthiness of m and n, but cv2.DMatch objects are always truthy.) -/
def goodMatchesOf : List (DMatch × DMatch) → List DMatch
  | [] => []
  | (m, n) :: rest =>
    if m.distance < 3 / 4 * n.distance then m :: goodMatchesOf rest
    else goodMatchesOf rest

/-- The implicit tuple unpacking in "for m, n in matches": every neighbour
list must have exactly two elements, otherwise Python raises a ValueError
which nothing in find_match catches. -/
def unpack2 : List (List DMatch) → Except PyErr (List (DMatch × DMatch))
  | [] => .ok []
  | row :: rest =>
    match row with
    | [m, n] =>
      match unpack2 rest with
      | .error e => .error e
      | .ok l => .ok ((m, n) :: l)
    | _ => .error .valueErrorUnpack

/-- Python list subscript kps[i].pt: an out-of-range index raises an
IndexError which nothing in find_match catches. -/
def getPt (kps : List KeyPoint) (i : Nat) : Except PyErr (Rat × Rat) :=
  match kps.get? i with
  | some kp => .ok kp.pt
  | none => .error .indexError

/-- Effectful map over a list in the Except monad, stopping at the first
error (the way a Python list comprehension raises at the first bad item). -/
def mapExcept (f : α → Except PyErr β) : List α → Except PyErr (List β)
  | [] => .ok []
  | a :: as =>
    match f a with
    | .error e => .error e
    | .ok b =>
      match mapExcept f as with
      | .error e => .error e
      | .ok bs => .ok (b :: bs)

/-- Steps 2-6 of the find_match loop body for one cache entry: rebuild the
keypoints, skip when they or the descriptors are absent, knnMatch (cv2
errors caught: skip), ratio test, early rejection when the good matches
are below RANSAC_MIN_INLIERS, then homography estimation; none means the
entry contributes no candidate, some k is its inlier count. -/
def processEntry (prims : VisionPrims) (kp1 : List KeyPoint) (des1 : List Desc)
    (e : Entry) : Except PyErr (Option Nat) :=
  let kp2 := json_to_keypoints e.kp_data
  match e.des with
  | none => .ok none
  | some des2 =>
    if kp2.isEmpty then .ok none
    else
      match prims.knnMatch des1 des2 with
      | .error _ => .ok none
      | .ok rows =>
        match unpack2 rows with
        | .error err => .error err
        | .ok pairs =>
          let good := goodMatchesOf pairs
          if good.length < RANSAC_MIN_INLIERS then .ok none
          else
            match mapExcept (fun m => getPt kp1 m.queryIdx) good with
            | .error err => .error err
            | .ok src =>
              match mapExcept (fun m => getPt kp2 m.trainIdx) good with
              | .error err => .error err
              | .ok dst =>
                match prims.findHomography src dst 5 with
                | none => .ok none
                | some mask => .ok (some (mask.count true))

/-- Step 7 of find_match: the entry becomes the new best candidate exactly
when its inlier count reaches RANSAC_MIN_INLIERS and strictly exceeds the
running maximum (initialised to -1). -/
def scanStep (acc : Option String × Int) (path : String) (r : Option Nat) :
    Option String × Int :=
  match r with
  | none => acc
  | some s =>
    if RANSAC_MIN_INLIERS ≤ s ∧ acc.2 < (s : Int) then (some path, (s : Int))
    else acc

/-- The candidate loop of find_match over the cached entries, threading the
(best candidate, max inliers) accumulator; an uncaught Python exception
aborts the whole loop. -/
def scanGo (prims : VisionPrims) (kp1 : List KeyPoint) (des1 : List Desc) :
    Cache → Option String × Int → Except PyErr (Option String × Int)
  | [], acc => .ok acc
  | pe :: rest, acc =>
    match processEntry prims kp1 des1 pe.2 with
    | .error err => .error err
    | .ok r => scanGo prims kp1 des1 rest (scanStep acc pe.1 r)

/-- searcher.py Searcher: holds the cache mapping loaded by the
constructor. -/
structure Searcher where
  cached_data : Cache
deriving DecidableEq, Repr

/-- searcher.py Searcher.find_match: extract the query descriptors (any
failure there is caught and reported as None), then scan every cache entry
keeping the best geometrically verified candidate. -/
def find_match (prims : VisionPrims) (s : Searcher) (query_image_path : String) :
    Except PyErr (Option String) :=
  match prims.imread query_image_path with
  | none => .ok none
  | some img =>
    match prims.detectAndCompute ORB_N_FEATURES (prims.resize RESIZE_WIDTH RESIZE_HEIGHT img) with
    | .error _ => .ok none
    | .ok (kp1, odes) =>
      match odes with
      | none => .ok none
      | some des1 =>
        if kp1.isEmpty then .ok none
        else
          match scanGo prims kp1 des1 s.cached_data (none, -1) with
          | .error err => .error err
          | .ok acc => .ok acc.1

/-- State-passing form of find_match: the loop body never assigns to
self.cached_data, so the method returns the mapping unchanged next to its
result. -/
def find_match_st (prims : VisionPrims) (s : Searcher) (query_image_path : String) :
    Except PyErr (Option String) × Cache :=
  (find_match prims s query_image_path, s.cached_data)

/-! ## Spec-side reformulations -/

/-- Spec-side selection policy, written from the words of the spec
(sections 4.2 steps 3f and 4): among the entries whose inlier count
reaches RANSAC_MIN_INLIERS, pick the one with the maximal count, an
earlier entry winning ties; none when no entry reaches the threshold.
Recursion is over the candidate list from the right, so agreement with the
left-to-right scan of the code is a real statement. -/
def selectBestSpec : List (String × Option Nat) → Option (String × Nat)
  | [] => none
  | (p, r) :: rest =>
    let tail := selectBestSpec rest
    match r with
    | none => tail
    | some s =>
      if RANSAC_MIN_INLIERS ≤ s then
        match tail with
        | none => some (p, s)
        | some (q, t) => if s < t then some (q, t) else some (p, s)
      else tail

/-- How a selection outcome refines a running accumulator: a selected
candidate replaces the accumulator exactly when it strictly beats its
running maximum. -/
def combineSel (acc : Option String × Int) : Option (String × Nat) → Option String × Int
  | none => acc
  | some (p, s) => if acc.2 < (s : Int) then (some p, (s : Int)) else acc

/-- The per-entry verification outcomes of a search, in cache order, each
paired with its entry identifier. -/
def scoredOf (prims : VisionPrims) (kp1 : List KeyPoint) (des1 : List Desc)
    (entries : Cache) : Except PyErr (List (String × Option Nat)) :=
  mapExcept
    (fun pe =>
      match processEntry prims kp1 des1 pe.2 with
      | .error err => .error err
      | .ok r => .ok (pe.1, r))
    entries

/-- Modelled from the spec: the per-entry verification of section 4.2 with
the early-rejection step c omitted (the spec calls that step a pure
performance optimization with no correctness cost), so homography
estimation runs even when the good matches are below the threshold.
Identical to processEntry in every other respect. -/
def processEntryNoSkip (prims : VisionPrims) (kp1 : List KeyPoint) (des1 : List Desc)
    (e : Entry) : Except PyErr (Option Nat) :=
  let kp2 := json_to_keypoints e.kp_data
  match e.des with
  | none => .ok none
  | some des2 =>
    if kp2.isEmpty then .ok none
    else
      match prims.knnMatch des1 des2 with
      | .error _ => .ok none
      | .ok rows =>
        match unpack2 rows with
        | .error err => .error err
        | .ok pairs =>
          let good := goodMatchesOf pairs
          match mapExcept (fun m => getPt kp1 m.queryIdx) good with
          | .error err => .error err
          | .ok src =>
            match mapExcept (fun m => getPt kp2 m.trainIdx) good with
            | .error err => .error err
            | .ok dst =>
              match prims.findHomography src dst 5 with
              | none => .ok none
              | some mask => .ok (some (mask.count true))

/-- The candidate loop of the un-optimized search. -/
def scanGoNoSkip (prims : VisionPrims) (kp1 : List KeyPoint) (des1 : List Desc) :
    Cache → Option String × Int → Except PyErr (Option String × Int)
  | [], acc => .ok acc
  | pe :: rest, acc =>
    match processEntryNoSkip prims kp1 des1 pe.2 with
    | .error err => .error err
    | .ok r => scanGoNoSkip prims kp1 des1 rest (scanStep acc pe.1 r)

/-- Modelled from the spec: find_match with the early-rejection
optimization removed, for the refinement comparison of claim C5. -/
def find_match_no_skip (prims : VisionPrims) (s : Searcher) (query_image_path : String) :
    Except PyErr (Option String) :=
  match prims.imread query_image_path with
  | none => .ok none
  | some img =>
    match prims.detectAndCompute ORB_N_FEATURES (prims.resize RESIZE_WIDTH RESIZE_HEIGHT img) with
    | .error _ => .ok none
    | .ok (kp1, odes) =>
      match odes with
      | none => .ok none
      | some des1 =>
        if kp1.isEmpty then .ok none
        else
          match scanGoNoSkip prims kp1 des1 s.cached_data (none, -1) with
          | .error err => .error err
          | .ok acc => .ok acc.1

/-! ## Concrete instances used by the claims -/

/-- A keypoint at a given position, the remaining metadata fixed. -/
def kpAt (x y : Rat) : KeyPoint :=
  { pt := (x, y), size := 1, angle := 0, response := 0, octave := 0, class_id := 0 }

/-- Twenty-two keypoints whose first element sits at the given abscissa
(the remaining ones at the origin): enough to tell entries apart by their
first reference point. -/
def rowKps (base : Rat) : List KeyPoint :=
  kpAt base 0 :: List.replicate 21 (kpAt 0 0)

/-- A cache entry with twenty-two serialized keypoints led by the given
abscissa and twenty-two descriptor tokens. -/
def rowEntry (base : Rat) : Entry :=
  ⟨keypoints_to_json (rowKps base), some (List.range 22)⟩

/-- Primitives realising the best-of selection scenario of the spec: every
query descriptor gets an unambiguous nearest neighbour (distances 0 and 1,
so the ratio test passes), and homography estimation supports the entry
whose first reference keypoint lies at abscissa 200 or more with 22
inliers, any other entry with only 10. -/
def tiePrims : VisionPrims where
  imread := fun _ => some 0
  resize := fun _ _ img => img
  detectAndCompute := fun _ _ => .ok (rowKps 0, some (List.range 22))
  knnMatch := fun d1 d2 =>
    .ok ((List.range (min d1.length d2.length)).map fun i => [⟨i, i, 0⟩, ⟨i, i, 1⟩])
  findHomography := fun _ dst _ =>
    some ((List.range 22).map fun i =>
      decide (i < if 200 ≤ (dst.headD (0, 0)).1 then 22 else 10))

/-- Three cached candidates whose inlier counts under tiePrims are 10, 22
and 22 in iteration order. -/
def tieCache : Cache :=
  [("ref_A.jpg", rowEntry 100), ("ref_B.jpg", rowEntry 200), ("ref_C.jpg", rowEntry 300)]

/-- Primitives reproducing what cv2.BFMatcher.knnMatch with k = 2 returns
against a reference image that stores a single descriptor: one-element
neighbour lists. -/
def singlePrims : VisionPrims where
  imread := fun _ => some 0
  resize := fun _ _ img => img
  detectAndCompute := fun _ _ => .ok ([kpAt 0 0], some [0])
  knnMatch := fun _ _ => .ok [[⟨0, 0, 0⟩]]
  findHomography := fun _ _ _ => none

/-- A cache whose only entry stores exactly one descriptor. -/
def singleCache : Cache :=
  [("ref_single.jpg", ⟨keypoints_to_json [kpAt 0 0], some [0]⟩)]

/-- Primitives for the lower threshold boundary: the only candidate yields
exactly RANSAC_MIN_INLIERS - 1 good matches, while homography estimation,
were it ever consulted, would report a thousand inliers. -/
def boundaryLowPrims : VisionPrims where
  imread := fun _ => some 0
  resize := fun _ _ img => img
  detectAndCompute := fun _ _ => .ok (rowKps 0, some (List.range 22))
  knnMatch := fun d1 d2 =>
    .ok ((List.range (min d1.length d2.length)).map fun i => [⟨i, i, 0⟩, ⟨i, i, 1⟩])
  findHomography := fun _ _ _ => some (List.replicate 1000 true)

/-- A cache whose only entry stores RANSAC_MIN_INLIERS - 1 descriptors. -/
def boundaryLowCache : Cache :=
  [("ref_low.jpg", ⟨keypoints_to_json (rowKps 0), some (List.range 14)⟩)]

/-- Primitives for the upper threshold boundary: every point pair passed to
homography estimation comes back as an inlier (all geometrically
consistent). -/
def boundaryHighPrims : VisionPrims where
  imread := fun _ => some 0
  resize := fun _ _ img => img
  detectAndCompute := fun _ _ => .ok (rowKps 0, some (List.range 22))
  knnMatch := fun d1 d2 =>
    .ok ((List.range (min d1.length d2.length)).map fun i => [⟨i, i, 0⟩, ⟨i, i, 1⟩])
  findHomography := fun src _ _ => some (src.map fun _ => true)

/-- A cache whose only entry stores exactly RANSAC_MIN_INLIERS
descriptors. -/
def boundaryHighCache : Cache :=
  [("ref_high.jpg", ⟨keypoints_to_json (rowKps 0), some (List.range 15)⟩)]

/-- Primitives on which every operation reports failure; used to
instantiate hypotheses about the vision-primitive contracts vacuously. -/
def failPrims : VisionPrims where
  imread := fun _ => none
  resize := fun _ _ img => img
  detectAndCompute := fun _ _ => .error .cv
  knnMatch := fun _ _ => .error .cv
  findHomography := fun _ _ _ => none

/-! ## Helper lemmas -/

/-- json_to_keypoints is the elementwise reconstruction (the early return
for the empty list coincides with the map). -/
lemma json_to_keypoints_map (l : List KpJson) :
    json_to_keypoints l = l.map fun p =>
      { pt := p.pt, size := p.size, angle := p.angle, response := p.response,
        octave := p.octave, class_id := p.class_id } := by
  cases l <;> rfl

lemma json_to_keypoints_keypoints_to_json (kps : List KeyPoint) :
    json_to_keypoints (keypoints_to_json kps) = kps := by
  rw [json_to_keypoints_map, keypoints_to_json, List.map_map]
  exact List.map_id kps

lemma mem_goodMatchesOf_iff (pairs : List (DMatch × DMatch)) (m : DMatch) :
    m ∈ goodMatchesOf pairs ↔
      ∃ n, (m, n) ∈ pairs ∧ m.distance < 3 / 4 * n.distance := by
  induction pairs with
  | nil => simp [goodMatchesOf]
  | cons mn rest ih =>
    obtain ⟨a, b⟩ := mn
    by_cases hr : a.distance < 3 / 4 * b.distance
    · simp only [goodMatchesOf, if_pos hr, List.mem_cons, ih]
      constructor
      · rintro (rfl | ⟨n, hn, hd⟩)
        · exact ⟨b, Or.inl rfl, hr⟩
        · exact ⟨n, Or.inr hn, hd⟩
      · rintro ⟨n, hn | hn, hd⟩
        · obtain ⟨rfl, rfl⟩ := Prod.mk.injEq .. ▸ hn
          exact Or.inl rfl
        · exact Or.inr ⟨n, hn, hd⟩
    · simp only [goodMatchesOf, if_neg hr, List.mem_cons, ih]
      constructor
      · rintro ⟨n, hn, hd⟩
        exact ⟨n, Or.inr hn, hd⟩
      · rintro ⟨n, hn | hn, hd⟩
        · obtain ⟨rfl, rfl⟩ := Prod.mk.injEq .. ▸ hn
          exact absurd hd hr
        · exact ⟨n, hn, hd⟩

lemma goodMatchesOf_eq_filterMap (pairs : List (DMatch × DMatch)) :
    goodMatchesOf pairs =
      pairs.filterMap fun mn =>
        if mn.1.distance < 3 / 4 * mn.2.distance then some mn.1 else none := by
  induction pairs with
  | nil => rfl
  | cons mn rest ih =>
    obtain ⟨a, b⟩ := mn
    by_cases hr : a.distance < 3 / 4 * b.distance <;>
      simp [goodMatchesOf, hr, ih]

lemma mapExcept_ok_mem {f : α → Except PyErr β} :
    ∀ {l : List α} {bs : List β}, mapExcept f l = .ok bs →
      ∀ b ∈ bs, ∃ a ∈ l, f a = .ok b := by
  intro l
  induction l with
  | nil =>
    intro bs h b hb
    simp only [mapExcept] at h
    cases h
    simp at hb
  | cons a as ih =>
    intro bs h b hb
    simp only [mapExcept] at h
    cases hfa : f a with
    | error e => rw [hfa] at h; cases h
    | ok v =>
      rw [hfa] at h
      cases hrest : mapExcept f as with
      | error e => rw [hrest] at h; cases h
      | ok vs =>
        rw [hrest] at h
        cases h
        rcases List.mem_cons.mp hb with rfl | hb2
        · exact ⟨a, List.mem_cons_self a as, hfa⟩
        · obtain ⟨a2, ha2, hfa2⟩ := ih hrest b hb2
          exact ⟨a2, List.mem_cons_of_mem a ha2, hfa2⟩

lemma mapExcept_ok_length {f : α → Except PyErr β} :
    ∀ {l : List α} {bs : List β}, mapExcept f l = .ok bs → bs.length = l.length := by
  intro l
  induction l with
  | nil =>
    intro bs h
    simp only [mapExcept] at h
    cases h
    rfl
  | cons a as ih =>
    intro bs h
    simp only [mapExcept] at h
    cases hfa : f a with
    | error e => rw [hfa] at h; cases h
    | ok v =>
      rw [hfa] at h
      cases hrest : mapExcept f as with
      | error e => rw [hrest] at h; cases h
      | ok vs =>
        rw [hrest] at h
        cases h
        simp [ih hrest]

lemma mapExcept_ok_of_forall {f : α → Except PyErr β} :
    ∀ {l : List α}, (∀ a ∈ l, ∃ b, f a = .ok b) →
      ∃ bs, mapExcept f l = .ok bs := by
  intro l
  induction l with
  | nil => intro _; exact ⟨[], rfl⟩
  | cons a as ih =>
    intro h
    obtain ⟨b, hb⟩ := h a (List.mem_cons_self a as)
    obtain ⟨bs, hbs⟩ := ih fun x hx => h x (List.mem_cons_of_mem a hx)
    exact ⟨b :: bs, by simp only [mapExcept, hb, hbs]⟩

lemma unpack2_ok_mem :
    ∀ {rows : List (List DMatch)} {pairs : List (DMatch × DMatch)},
      unpack2 rows = .ok pairs → ∀ mn ∈ pairs, [mn.1, mn.2] ∈ rows := by
  intro rows
  induction rows with
  | nil =>
    intro pairs h mn hmn
    simp only [unpack2] at h
    cases h
    simp at hmn
  | cons row rest ih =>
    intro pairs h mn hmn
    rcases row with _ | ⟨m, _ | ⟨n, _ | ⟨x, t⟩⟩⟩
    · simp only [unpack2] at h
      cases h
    · simp only [unpack2] at h
      cases h
    · simp only [unpack2] at h
      cases hrest : unpack2 rest with
      | error e => rw [hrest] at h; cases h
      | ok l =>
        rw [hrest] at h
        cases h
        rcases List.mem_cons.mp hmn with rfl | hmn2
        · exact List.mem_cons_self _ _
        · exact List.mem_cons_of_mem _ (ih hrest mn hmn2)
    · simp only [unpack2] at h
      cases h

/-- The best-candidate update, uncurried for folding. -/
def scanFoldFn (a : Option String × Int) (x : String × Option Nat) : Option String × Int :=
  scanStep a x.1 x.2

/-- One step of the best-candidate update commutes with the spec-side
selection. -/
lemma combineSel_scanStep (rest : List (String × Option Nat)) (b : Option String) (m : Int)
    (p : String) (r : Option Nat) :
    combineSel (scanStep (b, m) p r) (selectBestSpec rest) =
      combineSel (b, m) (selectBestSpec ((p, r) :: rest)) := by
  cases r with
  | none => rfl
  | some s =>
    by_cases hT : RANSAC_MIN_INLIERS ≤ s
    · by_cases hm : m < (s : Int)
      · have hstep : scanStep (b, m) p (some s) = (some p, (s : Int)) := by
          simp [scanStep, hT, hm]
        rw [hstep]
        cases hsel : selectBestSpec rest with
        | none => simp [selectBestSpec, hsel, combineSel, hT, hm]
        | some qt =>
          obtain ⟨q, t⟩ := qt
          by_cases hst : s < t
          · have hmt : m < (t : Int) := lt_trans hm (by exact_mod_cast hst)
            simp [selectBestSpec, hsel, combineSel, hT, hm, hst, hmt]
          · have hts : ¬ (s : Int) < (t : Int) := by
              exact_mod_cast hst
            simp [selectBestSpec, hsel, combineSel, hT, hm, hst, hts]
      · have hstep : scanStep (b, m) p (some s) = (b, m) := by
          simp [scanStep, hm]
        rw [hstep]
        cases hsel : selectBestSpec rest with
        | none => simp [selectBestSpec, hsel, combineSel, hT, hm]
        | some qt =>
          obtain ⟨q, t⟩ := qt
          by_cases hst : s < t
          · simp [selectBestSpec, hsel, combineSel, hT, hst]
          · have hts : (t : Int) ≤ (s : Int) := by
              exact_mod_cast Nat.le_of_not_lt hst
            have hmt : ¬ m < (t : Int) := fun hc => hm (lt_of_lt_of_le hc hts)
            simp [selectBestSpec, hsel, combineSel, hT, hm, hst, hmt]
    · have hstep : scanStep (b, m) p (some s) = (b, m) := by
        simp [scanStep, hT]
      rw [hstep]
      simp [selectBestSpec, hT]

/-- The left-to-right best-candidate fold of the searcher computes, from
any starting accumulator, the spec-side selection combined with that
accumulator. -/
lemma foldl_scanStep_eq_selectBestSpec (l : List (String × Option Nat)) :
    ∀ acc : Option String × Int,
      l.foldl scanFoldFn acc = combineSel acc (selectBestSpec l) := by
  induction l with
  | nil => intro acc; rfl
  | cons x rest ih =>
    intro acc
    obtain ⟨p, r⟩ := x
    obtain ⟨b, m⟩ := acc
    rw [List.foldl_cons, ih]
    exact combineSel_scanStep rest b m p r

/-- The candidate loop equals scoring every entry in order and folding the
best-candidate update over the outcomes; an uncaught exception is the
same for both presentations because both stop at the first one. -/
lemma scanGo_eq_scored (prims : VisionPrims) (kp1 : List KeyPoint) (des1 : List Desc) :
    ∀ (entries : Cache) (acc : Option String × Int),
      scanGo prims kp1 des1 entries acc =
        match scoredOf prims kp1 des1 entries with
        | .error e => .error e
        | .ok l => .ok (l.foldl scanFoldFn acc) := by
  intro entries
  induction entries with
  | nil => intro acc; rfl
  | cons pe rest ih =>
    intro acc
    cases hpe : processEntry prims kp1 des1 pe.2 with
    | error e =>
      simp only [scanGo, scoredOf, mapExcept, hpe]
    | ok r =>
      simp only [scanGo, scoredOf, mapExcept, hpe]
      rw [ih (scanStep acc pe.1 r)]
      simp only [scoredOf]
      cases hrest : mapExcept
          (fun pe =>
            match processEntry prims kp1 des1 pe.2 with
            | .error err => .error err
            | .ok r => .ok (pe.1, r)) rest with
      | error e => rfl
      | ok l => rfl

/-- A selected candidate is one of the scored entries, and its score
reaches the threshold. -/
lemma selectBestSpec_mem :
    ∀ {l : List (String × Option Nat)} {p : String} {s : Nat},
      selectBestSpec l = some (p, s) →
        (p, some s) ∈ l ∧ RANSAC_MIN_INLIERS ≤ s := by
  intro l
  induction l with
  | nil => intro p s h; cases h
  | cons x rest ih =>
    intro p s h
    obtain ⟨q, r⟩ := x
    cases r with
    | none =>
      simp only [selectBestSpec] at h
      obtain ⟨hmem, hT⟩ := ih h
      exact ⟨List.mem_cons_of_mem _ hmem, hT⟩
    | some t =>
      simp only [selectBestSpec] at h
      by_cases hT : RANSAC_MIN_INLIERS ≤ t
      · rw [if_pos hT] at h
        cases hsel : selectBestSpec rest with
        | none =>
          rw [hsel] at h
          cases h
          exact ⟨List.mem_cons_self _ _, hT⟩
        | some qt =>
          obtain ⟨q2, t2⟩ := qt
          rw [hsel] at h
          dsimp only at h
          by_cases hst : t < t2
          · rw [if_pos hst] at h
            cases h
            obtain ⟨hmem, hT2⟩ := ih hsel
            exact ⟨List.mem_cons_of_mem _ hmem, hT2⟩
          · rw [if_neg hst] at h
            cases h
            exact ⟨List.mem_cons_self _ _, hT⟩
      · rw [if_neg hT] at h
        obtain ⟨hmem, hT2⟩ := ih h
        exact ⟨List.mem_cons_of_mem _ hmem, hT2⟩

/-- Every scored outcome carries the identifier of one of the scanned
entries. -/
lemma scoredOf_keys {prims : VisionPrims} {kp1 : List KeyPoint} {des1 : List Desc}
    {entries : Cache} {l : List (String × Option Nat)}
    (h : scoredOf prims kp1 des1 entries = .ok l) :
    ∀ x ∈ l, x.1 ∈ entries.map Prod.fst := by
  intro x hx
  obtain ⟨pe, hpe, hfx⟩ := mapExcept_ok_mem h x hx
  cases hproc : processEntry prims kp1 des1 pe.2 with
  | error e => rw [hproc] at hfx; cases hfx
  | ok r =>
    rw [hproc] at hfx
    cases hfx
    exact List.mem_map_of_mem Prod.fst hpe

/-- The builder fold threads the dict and the event trace independently:
the dict is the plain fold of buildStep and the trace records one
processing event per image, in order. -/
lemma build_foldl_spec (prims : VisionPrims) :
    ∀ (paths : List String) (d : Cache) (evs : List BuildEv),
      paths.foldl
          (fun acc p => (buildStep prims acc.1 p, acc.2 ++ [BuildEv.imageProcessed p]))
          (d, evs) =
        (paths.foldl (buildStep prims) d, evs ++ paths.map BuildEv.imageProcessed) := by
  intro paths
  induction paths with
  | nil => intro d evs; simp
  | cons a rest ih =>
    intro d evs
    simp only [List.foldl_cons, List.map_cons]
    rw [ih]
    simp

/-- Closed form of one builder run: the final dict is the fold of the
per-image step, the trace is all processing events followed by the
single write of the final dict. -/
lemma create_and_save_cache_eq (prims : VisionPrims) (paths : List String) :
    create_and_save_cache prims paths =
      (paths.foldl (buildStep prims) [],
        paths.map BuildEv.imageProcessed ++
          [BuildEv.cacheWritten (paths.foldl (buildStep prims) [])]) := by
  unfold create_and_save_cache
  rw [build_foldl_spec]
  simp

/-- Replacing the bindings of key k in place does not disturb lookups of
other keys (the replacement keeps every key). -/
lemma lookup_map_replace_ne (k : String) (v : Entry) {p : String} (hpk : p ≠ k) :
    ∀ d : Cache,
      (d.map fun kv => if kv.1 = k then (k, v) else kv).lookup p = d.lookup p := by
  intro d
  induction d with
  | nil => rfl
  | cons kv rest ih =>
    obtain ⟨a, b⟩ := kv
    by_cases hak : a = k
    · subst hak
      simp [List.lookup_cons, beq_false_of_ne hpk, ih]
    · simp only [List.map_cons, if_neg hak]
      rw [List.lookup_cons, List.lookup_cons, ih]

/-- Replacing the bindings of a present key in place makes it map to the
new value. -/
lemma lookup_map_replace_eq (k : String) (v : Entry) :
    ∀ d : Cache, (d.lookup k).isSome →
      (d.map fun kv => if kv.1 = k then (k, v) else kv).lookup k = some v := by
  intro d
  induction d with
  | nil => intro hk; simp [List.lookup] at hk
  | cons kv rest ih =>
    intro hk
    obtain ⟨a, b⟩ := kv
    by_cases hak : a = k
    · subst hak
      simp only [List.map_cons, if_pos rfl]
      rw [List.lookup_cons]
      simp
    · have hne : (k == a) = false := beq_false_of_ne fun hc => hak hc.symm
      have hk2 : (rest.lookup k).isSome := by
        rw [List.lookup_cons, hne] at hk
        exact hk
      simp only [List.map_cons, if_neg hak]
      rw [List.lookup_cons, hne]
      exact ih hk2

/-- Appending a binding for a fresh key does not disturb other lookups. -/
lemma lookup_append_single_ne (k : String) (v : Entry) {p : String} (hpk : p ≠ k) :
    ∀ d : Cache, (d ++ [(k, v)]).lookup p = d.lookup p := by
  intro d
  induction d with
  | nil =>
    simp [List.lookup, beq_false_of_ne hpk]
  | cons kv rest ih =>
    obtain ⟨a, b⟩ := kv
    rw [List.cons_append, List.lookup_cons, List.lookup_cons, ih]

/-- Appending a binding for an absent key makes that key map to the new
value. -/
lemma lookup_append_single_eq (k : String) (v : Entry) :
    ∀ d : Cache, d.lookup k = none → (d ++ [(k, v)]).lookup k = some v := by
  intro d
  induction d with
  | nil => intro _; simp [List.lookup]
  | cons kv rest ih =>
    intro hk
    obtain ⟨a, b⟩ := kv
    rw [List.lookup_cons] at hk
    cases hka : k == a with
    | true => rw [hka] at hk; cases hk
    | false =>
      rw [hka] at hk
      rw [List.cons_append, List.lookup_cons, hka]
      exact ih hk

/-- Looking up after a Python dict assignment: the assigned key maps to
the new value, any other key is untouched. -/
lemma lookup_dictInsert (d : Cache) (k : String) (v : Entry) (p : String) :
    (dictInsert d k v).lookup p = if p = k then some v else d.lookup p := by
  unfold dictInsert
  by_cases hk : (d.lookup k).isSome
  · rw [if_pos hk]
    by_cases hpk : p = k
    · subst hpk
      rw [if_pos rfl]
      exact lookup_map_replace_eq p v d hk
    · rw [if_neg hpk]
      exact lookup_map_replace_ne k v hpk d
  · rw [if_neg hk]
    by_cases hpk : p = k
    · subst hpk
      rw [if_pos rfl]
      exact lookup_append_single_eq p v d (Option.not_isSome_iff_eq_none.mp hk)
    · rw [if_neg hpk]
      exact lookup_append_single_ne k v hpk d

/-- Pointwise characterization of the built dict: a path maps to its
extracted entry exactly when it occurs in the input list and its
extraction succeeds; failures of other images never disturb it. -/
lemma lookup_foldl_buildStep (prims : VisionPrims) :
    ∀ (paths : List String) (d : Cache) (p : String),
      (paths.foldl (buildStep prims) d).lookup p =
        if p ∈ paths ∧ (processImage prims p).isSome then processImage prims p
        else d.lookup p := by
  intro paths
  induction paths with
  | nil => intro d p; simp
  | cons a rest ih =>
    intro d p
    rw [List.foldl_cons, ih]
    by_cases hmem : p ∈ rest ∧ (processImage prims p).isSome
    · simp [hmem, List.mem_cons.mpr (Or.inr hmem.1)]
    · rw [if_neg hmem]
      unfold buildStep
      cases hpa : processImage prims a with
      | none =>
        by_cases hp : p = a
        · subst hp
          have : ¬ (p ∈ p :: rest ∧ (processImage prims p).isSome) := by
            intro hc; rw [hpa] at hc; simp at hc
          rw [if_neg this]
        · have : (p ∈ a :: rest ∧ (processImage prims p).isSome) ↔
              (p ∈ rest ∧ (processImage prims p).isSome) := by
            constructor
            · rintro ⟨hin, hs⟩
              rcases List.mem_cons.mp hin with rfl | hin2
              · exact absurd rfl hp
              · exact ⟨hin2, hs⟩
            · rintro ⟨hin, hs⟩
              exact ⟨List.mem_cons_of_mem _ hin, hs⟩
          rw [if_neg (fun hc => hmem (this.mp hc))]
      | some e =>
        rw [lookup_dictInsert]
        by_cases hp : p = a
        · subst hp
          have hin : p ∈ p :: rest := List.mem_cons_self _ _
          have hs : (processImage prims p).isSome := by rw [hpa]; rfl
          simp [hin, hs, hpa]
        · have : ¬ (p ∈ a :: rest ∧ (processImage prims p).isSome) := by
            rintro ⟨hin, hs⟩
            rcases List.mem_cons.mp hin with rfl | hin2
            · exact hp rfl
            · exact hmem ⟨hin2, hs⟩
          rw [if_neg hp, if_neg this]

/-- A stored entry always holds a nonempty descriptor list. -/
lemma processImage_des_nonempty {prims : VisionPrims} {p : String} {e : Entry}
    (h : processImage prims p = some e) :
    ∃ l : List Desc, e.des = some l ∧ 0 < l.length := by
  unfold processImage at h
  split at h
  · cases h
  · split at h
    · cases h
    · split at h
      · cases h
      · split at h
        · cases h
          exact ⟨_, rfl, by assumption⟩
        · cases h

/-- Under the vision-primitive contracts (inlier masks no longer than the
point set handed in, neighbour indices within the descriptor sets, at
least as many query keypoints as query descriptors, and cache entries
whose descriptor count is bounded by their keypoint count), the per-entry
verification with and without early rejection either agrees exactly, or
the skipped entry would have scored strictly below the threshold. -/
lemma processEntry_noSkip_agree (prims : VisionPrims) (kp1 : List KeyPoint)
    (des1 : List Desc) (e : Entry)
    (hmask : ∀ src dst tol mask, prims.findHomography src dst tol = some mask →
      mask.count true ≤ src.length)
    (hknn : ∀ d1 d2 rows, prims.knnMatch d1 d2 = .ok rows →
      ∀ row ∈ rows, ∀ m ∈ row, m.queryIdx < d1.length ∧ m.trainIdx < d2.length)
    (hkp1 : des1.length ≤ kp1.length)
    (halignE : ∀ ds, e.des = some ds → ds.length ≤ (json_to_keypoints e.kp_data).length) :
    processEntry prims kp1 des1 e = processEntryNoSkip prims kp1 des1 e ∨
      (processEntry prims kp1 des1 e = .ok none ∧
        ∃ r : Option Nat, processEntryNoSkip prims kp1 des1 e = .ok r ∧
          ∀ s, r = some s → s < RANSAC_MIN_INLIERS) := by
  cases hdes : e.des with
  | none => left; simp [processEntry, processEntryNoSkip, hdes]
  | some des2 =>
    by_cases hkp2 : (json_to_keypoints e.kp_data).isEmpty
    · left; simp [processEntry, processEntryNoSkip, hdes, hkp2]
    · cases hknnres : prims.knnMatch des1 des2 with
      | error err =>
        left; simp [processEntry, processEntryNoSkip, hdes, hkp2, hknnres]
      | ok rows =>
        cases hup : unpack2 rows with
        | error err =>
          left; simp [processEntry, processEntryNoSkip, hdes, hkp2, hknnres, hup]
        | ok pairs =>
          by_cases hgood : (goodMatchesOf pairs).length < RANSAC_MIN_INLIERS
          · right
            have hsrcall : ∀ m ∈ goodMatchesOf pairs, ∃ b, getPt kp1 m.queryIdx = .ok b := by
              intro m hm
              obtain ⟨n, hmn, _⟩ := (mem_goodMatchesOf_iff pairs m).mp hm
              have hrow := unpack2_ok_mem hup (m, n) hmn
              have hidx := (hknn des1 des2 rows hknnres _ hrow m (by simp)).1
              have hlt : m.queryIdx < kp1.length := lt_of_lt_of_le hidx hkp1
              refine ⟨(kp1.get ⟨m.queryIdx, hlt⟩).pt, ?_⟩
              unfold getPt
              rw [List.get?_eq_get hlt]
            have hdstall : ∀ m ∈ goodMatchesOf pairs,
                ∃ b, getPt (json_to_keypoints e.kp_data) m.trainIdx = .ok b := by
              intro m hm
              obtain ⟨n, hmn, _⟩ := (mem_goodMatchesOf_iff pairs m).mp hm
              have hrow := unpack2_ok_mem hup (m, n) hmn
              have hidx := (hknn des1 des2 rows hknnres _ hrow m (by simp)).2
              have hlt : m.trainIdx < (json_to_keypoints e.kp_data).length :=
                lt_of_lt_of_le hidx (halignE des2 hdes)
              refine ⟨((json_to_keypoints e.kp_data).get ⟨m.trainIdx, hlt⟩).pt, ?_⟩
              unfold getPt
              rw [List.get?_eq_get hlt]
            obtain ⟨src, hsrc⟩ := mapExcept_ok_of_forall hsrcall
            obtain ⟨dst, hdst⟩ := mapExcept_ok_of_forall hdstall
            refine ⟨by simp [processEntry, hdes, hkp2, hknnres, hup, hgood], ?_⟩
            cases hH : prims.findHomography src dst 5 with
            | none =>
              refine ⟨none, ?_, by simp⟩
              simp [processEntryNoSkip, hdes, hkp2, hknnres, hup, hsrc, hdst, hH]
            | some mask =>
              refine ⟨some (mask.count true), ?_, ?_⟩
              · simp [processEntryNoSkip, hdes, hkp2, hknnres, hup, hsrc, hdst, hH]
              · intro s hs
                cases hs
                calc mask.count true ≤ src.length := hmask _ _ _ _ hH
                  _ = (goodMatchesOf pairs).length := mapExcept_ok_length hsrc
                  _ < RANSAC_MIN_INLIERS := hgood
          · left
            simp [processEntry, processEntryNoSkip, hdes, hkp2, hknnres, hup, hgood]

/-- The optimized and the un-optimized candidate loops agree from any
accumulator, because a skipped sub-threshold entry never updates the best
candidate anyway. -/
lemma scanGo_noSkip_agree (prims : VisionPrims) (kp1 : List KeyPoint) (des1 : List Desc)
    (hmask : ∀ src dst tol mask, prims.findHomography src dst tol = some mask →
      mask.count true ≤ src.length)
    (hknn : ∀ d1 d2 rows, prims.knnMatch d1 d2 = .ok rows →
      ∀ row ∈ rows, ∀ m ∈ row, m.queryIdx < d1.length ∧ m.trainIdx < d2.length)
    (hkp1 : des1.length ≤ kp1.length) :
    ∀ entries : Cache,
      (∀ pe ∈ entries, ∀ ds, (pe.2 : Entry).des = some ds →
        ds.length ≤ (json_to_keypoints pe.2.kp_data).length) →
      ∀ acc, scanGo prims kp1 des1 entries acc = scanGoNoSkip prims kp1 des1 entries acc := by
  intro entries
  induction entries with
  | nil => intro _ acc; rfl
  | cons pe rest ih =>
    intro halign acc
    have hrest : ∀ pe2 ∈ rest, ∀ ds, (pe2.2 : Entry).des = some ds →
        ds.length ≤ (json_to_keypoints pe2.2.kp_data).length :=
      fun pe2 h2 => halign pe2 (List.mem_cons_of_mem _ h2)
    rcases processEntry_noSkip_agree prims kp1 des1 pe.2 hmask hknn hkp1
        (halign pe (List.mem_cons_self _ _)) with heq | ⟨hok, r, hnok, hsub⟩
    · simp only [scanGo, scanGoNoSkip, heq]
      cases processEntryNoSkip prims kp1 des1 pe.2 with
      | error err => rfl
      | ok r => exact ih hrest _
    · simp only [scanGo, scanGoNoSkip, hok, hnok]
      have hstep : scanStep acc pe.1 r = acc := by
        cases r with
        | none => rfl
        | some s =>
          have hlt := hsub s rfl
          simp [scanStep, Nat.not_le_of_lt hlt]
      rw [hstep]
      have hstep0 : scanStep acc pe.1 none = acc := rfl
      rw [hstep0]
      exact ih hrest acc

/-- The full search agrees with its un-optimized variant under the
vision-primitive contracts. -/
lemma find_match_noSkip_agree (prims : VisionPrims) (s : Searcher) (q : String)
    (hmask : ∀ src dst tol mask, prims.findHomography src dst tol = some mask →
      mask.count true ≤ src.length)
    (hknn : ∀ d1 d2 rows, prims.knnMatch d1 d2 = .ok rows →
      ∀ row ∈ rows, ∀ m ∈ row, m.queryIdx < d1.length ∧ m.trainIdx < d2.length)
    (hdc : ∀ n img kps ds, prims.detectAndCompute n img = .ok (kps, some ds) →
      ds.length ≤ kps.length)
    (halign : ∀ pe ∈ s.cached_data, ∀ ds, (pe.2 : Entry).des = some ds →
      ds.length ≤ (json_to_keypoints pe.2.kp_data).length) :
    find_match prims s q = find_match_no_skip prims s q := by
  cases himg : prims.imread q with
  | none => simp [find_match, find_match_no_skip, himg]
  | some img =>
    cases hdcres : prims.detectAndCompute ORB_N_FEATURES
        (prims.resize RESIZE_WIDTH RESIZE_HEIGHT img) with
    | error err => simp [find_match, find_match_no_skip, himg, hdcres]
    | ok kpodes =>
      obtain ⟨kp1, odes⟩ := kpodes
      cases odes with
      | none => simp [find_match, find_match_no_skip, himg, hdcres]
      | some des1 =>
        have hlen : des1.length ≤ kp1.length := hdc _ _ _ _ hdcres
        simp only [find_match, find_match_no_skip, himg, hdcres]
        rw [scanGo_noSkip_agree prims kp1 des1 hmask hknn hlen s.cached_data halign (none, -1)]

/-- Processing events carry no write. -/
lemma filter_isWrite_map_imageProcessed (paths : List String) :
    ((paths.map BuildEv.imageProcessed).filter fun e => e.isWrite) = [] := by
  induction paths with
  | nil => rfl
  | cons a rest ih => simp [BuildEv.isWrite, ih]

/-! ## Claim theorems -/

/-- C8: deserializing the serialized form of any keypoint sequence
reproduces the sequence exactly — same length, same order, identical
pt, size, angle, response, octave and class_id fields — so the index
alignment between keypoints and descriptors of a cache entry survives
serialization. -/
theorem claim_keypoint_round_trip :
    ∀ kps : List KeyPoint,
      json_to_keypoints (keypoints_to_json kps) = kps ∧
      (keypoints_to_json kps).length = kps.length ∧
      ∀ i : Nat, (json_to_keypoints (keypoints_to_json kps)).get? i = kps.get? i := by
  intro kps
  have h := json_to_keypoints_keypoints_to_json kps
  refine ⟨h, ?_, fun i => by rw [h]⟩
  unfold keypoints_to_json
  exact List.length_map kps _

/-- C6: a query descriptor with neighbour pair (m, n) is kept as a good
match exactly when m.distance < 0.75 * n.distance; in particular a
descriptor whose pairs all fail that test never appears among the good
matches. -/
theorem claim_ratio_test :
    (∀ pairs : List (DMatch × DMatch),
      goodMatchesOf pairs =
        pairs.filterMap fun mn =>
          if mn.1.distance < 3 / 4 * mn.2.distance then some mn.1 else none) ∧
    ∀ (pairs : List (DMatch × DMatch)) (m : DMatch),
      m ∈ goodMatchesOf pairs ↔
        ∃ n, (m, n) ∈ pairs ∧ m.distance < 3 / 4 * n.distance :=
  ⟨goodMatchesOf_eq_filterMap, mem_goodMatchesOf_iff⟩

/-- C9: on an empty reference image set the builder refuses to run,
reports failure, and its event trace contains no cache write. -/
theorem claim_empty_reference_set_refused :
    ∀ prims : VisionPrims,
      build_descriptor_cache prims [] = (false, []) ∧
      ((build_descriptor_cache prims []).2.filter fun e => e.isWrite) = [] := by
  intro prims
  exact ⟨rfl, rfl⟩

/-- C4: one builder run processes every image first and then performs
exactly one write, of the complete final cache, as the last event of the
trace; every prior event is a non-write. -/
theorem claim_cache_single_final_write :
    ∀ (prims : VisionPrims) (paths : List String),
      (create_and_save_cache prims paths).2 =
        paths.map BuildEv.imageProcessed ++
          [BuildEv.cacheWritten (create_and_save_cache prims paths).1] ∧
      (((create_and_save_cache prims paths).2.filter fun e => e.isWrite).length = 1) ∧
      ∀ e ∈ (create_and_save_cache prims paths).2.dropLast, e.isWrite = false := by
  intro prims paths
  have heq := create_and_save_cache_eq prims paths
  have htr : (create_and_save_cache prims paths).2 =
      paths.map BuildEv.imageProcessed ++
        [BuildEv.cacheWritten (create_and_save_cache prims paths).1] := by
    rw [heq]
  refine ⟨htr, ?_, ?_⟩
  · rw [htr, List.filter_append, filter_isWrite_map_imageProcessed]
    rfl
  · intro e he
    rw [htr, List.dropLast_concat] at he
    obtain ⟨p, _, rfl⟩ := List.mem_map.mp he
    rfl

/-- C7: the built cache maps a path to its extracted entry exactly when
extraction succeeds (with a nonempty descriptor list), a failing or
empty-yield image has no key at all, and failures of other images never
disturb the stored entries. -/
theorem claim_no_empty_entry_persisted :
    ∀ (prims : VisionPrims) (paths : List String) (p : String),
      ((create_and_save_cache prims paths).1.lookup p =
        if p ∈ paths ∧ (processImage prims p).isSome then processImage prims p
        else none) ∧
      (∀ e : Entry, (create_and_save_cache prims paths).1.lookup p = some e →
        ∃ l : List Desc, e.des = some l ∧ 0 < l.length) ∧
      ((processImage prims p).isNone →
        (create_and_save_cache prims paths).1.lookup p = none) := by
  intro prims paths p
  have hfst : (create_and_save_cache prims paths).1 = paths.foldl (buildStep prims) [] := by
    rw [create_and_save_cache_eq]
  have hchar : (create_and_save_cache prims paths).1.lookup p =
      if p ∈ paths ∧ (processImage prims p).isSome then processImage prims p
      else none := by
    rw [hfst, lookup_foldl_buildStep]
    rfl
  refine ⟨hchar, ?_, ?_⟩
  · intro e he
    rw [hchar] at he
    by_cases hc : p ∈ paths ∧ (processImage prims p).isSome
    · rw [if_pos hc] at he
      exact processImage_des_nonempty he
    · rw [if_neg hc] at he
      cases he
  · intro hnone
    rw [hchar]
    by_cases hc : p ∈ paths ∧ (processImage prims p).isSome
    · exact absurd hc.2 (by simp [Option.isNone_iff_eq_none.mp hnone])
    · rw [if_neg hc]

/-- From the initial accumulator (no candidate, max inliers -1), combining
with a selection outcome just adopts it, because every inlier count beats
-1. -/
lemma combineSel_init (r : Option (String × Nat)) :
    combineSel (none, -1) r =
      (r.map Prod.fst, match r with | none => (-1 : Int) | some x => (x.2 : Int)) := by
  cases r with
  | none => rfl
  | some ps =>
    obtain ⟨p, s⟩ := ps
    have hneg : (-1 : Int) < (s : Int) := by omega
    simp [combineSel, hneg]

/-- C1: the candidate scan of find_match computes exactly the spec-side
selection: among the entries whose inlier count reaches
RANSAC_MIN_INLIERS, the first one attaining the maximal count wins (a
later tie never displaces an earlier candidate), and no candidate at all
yields None.  In particular, on the three cached candidates whose inlier
counts are 10, 22 and 22 with threshold 15, find_match returns the
earlier of the two 22-inlier candidates. -/
theorem claim_best_candidate_selection :
    (∀ (prims : VisionPrims) (kp1 : List KeyPoint) (des1 : List Desc) (entries : Cache),
      scanGo prims kp1 des1 entries (none, -1) =
        match scoredOf prims kp1 des1 entries with
        | .error e => .error e
        | .ok l =>
          .ok ((selectBestSpec l).map Prod.fst,
            match selectBestSpec l with
            | none => (-1 : Int)
            | some x => (x.2 : Int))) ∧
    find_match tiePrims ⟨tieCache⟩ "query.jpg" = .ok (some "ref_B.jpg") := by
  constructor
  · intro prims kp1 des1 entries
    rw [scanGo_eq_scored]
    cases hscored : scoredOf prims kp1 des1 entries with
    | error e => rfl
    | ok l =>
      dsimp only
      rw [foldl_scanStep_eq_selectBestSpec, combineSel_init]
  · have hratio : ((0 : Rat) < 3 / 4 * 1) := by norm_num
    simp [find_match, tiePrims, tieCache, rowEntry, rowKps, kpAt, scanGo, processEntry,
      unpack2, goodMatchesOf, mapExcept, getPt, json_to_keypoints, keypoints_to_json,
      scanStep, RANSAC_MIN_INLIERS, ORB_N_FEATURES, hratio, List.range_succ]
    decide

/-- C2 (code bug): find_match can let a Python exception escape.  Against
a cache whose only entry stores a single descriptor, cv2 knnMatch with
k = 2 returns one-element neighbour lists and the tuple unpacking in the
ratio-test loop raises an uncaught ValueError that aborts the whole
search, although the code comment there says it makes sure two
neighbours exist and the specification promises that per-entry errors are
caught and treated as zero support. -/
theorem claim_uncaught_error_single_descriptor_entry :
    find_match singlePrims ⟨singleCache⟩ "query.jpg" = .error .valueErrorUnpack := by
  decide

/-- C3: find_match is a deterministic function of the cache contents and
the query: two searchers over equal cache mappings return the same
identifier, and the scan over the entries also agrees on the supporting
inlier count, for every choice of (pure) vision primitives. -/
theorem claim_find_match_deterministic (prims : VisionPrims) (s1 s2 : Searcher)
    (q : String) (h : s1.cached_data = s2.cached_data) :
    find_match prims s1 q = find_match prims s2 q ∧
    ∀ (kp1 : List KeyPoint) (des1 : List Desc) (acc : Option String × Int),
      scanGo prims kp1 des1 s1.cached_data acc = scanGo prims kp1 des1 s2.cached_data acc := by
  cases s1
  cases s2
  cases h
  exact ⟨rfl, fun _ _ _ => rfl⟩

/-- Witness for C3 at a concrete cache and query. -/
theorem claim_find_match_deterministic_witness :
    find_match tiePrims ⟨tieCache⟩ "query.jpg" = find_match tiePrims ⟨tieCache⟩ "query.jpg" ∧
    ∀ (kp1 : List KeyPoint) (des1 : List Desc) (acc : Option String × Int),
      scanGo tiePrims kp1 des1 tieCache acc = scanGo tiePrims kp1 des1 tieCache acc :=
  claim_find_match_deterministic tiePrims ⟨tieCache⟩ ⟨tieCache⟩ "query.jpg" rfl

set_option maxRecDepth 8000 in
/-- C5: under the vision-primitive contracts (an inlier mask never has
more inliers than point pairs handed in, neighbour indices address the
descriptor sets, detect-and-compute returns at most one descriptor per
keypoint, and cache entries have at least as many keypoints as
descriptors), removing the early-rejection step never changes the result
of find_match; moreover a candidate with exactly RANSAC_MIN_INLIERS - 1
good matches is rejected without consulting homography estimation (the
oracle would have reported a thousand inliers), and a candidate with
exactly RANSAC_MIN_INLIERS good matches, all geometrically consistent, is
accepted. -/
theorem claim_early_rejection_refinement :
    (∀ (prims : VisionPrims) (s : Searcher) (q : String),
      (∀ src dst tol mask, prims.findHomography src dst tol = some mask →
        mask.count true ≤ src.length) →
      (∀ d1 d2 rows, prims.knnMatch d1 d2 = .ok rows →
        ∀ row ∈ rows, ∀ m ∈ row, m.queryIdx < d1.length ∧ m.trainIdx < d2.length) →
      (∀ n img kps ds, prims.detectAndCompute n img = .ok (kps, some ds) →
        ds.length ≤ kps.length) →
      (∀ pe ∈ s.cached_data, ∀ ds, (pe.2 : Entry).des = some ds →
        ds.length ≤ (json_to_keypoints pe.2.kp_data).length) →
      find_match prims s q = find_match_no_skip prims s q) ∧
    find_match boundaryLowPrims ⟨boundaryLowCache⟩ "query.jpg" = .ok none ∧
    find_match boundaryHighPrims ⟨boundaryHighCache⟩ "query.jpg" = .ok (some "ref_high.jpg") := by
  refine ⟨fun prims s q h1 h2 h3 h4 => find_match_noSkip_agree prims s q h1 h2 h3 h4, ?_, ?_⟩
  · have hratio : ((0 : Rat) < 3 / 4 * 1) := by norm_num
    simp [find_match, boundaryLowPrims, boundaryLowCache, rowKps, kpAt, scanGo, processEntry,
      unpack2, goodMatchesOf, mapExcept, getPt, json_to_keypoints, keypoints_to_json,
      scanStep, RANSAC_MIN_INLIERS, ORB_N_FEATURES, hratio, List.range_succ]
  · have hratio : ((0 : Rat) < 3 / 4 * 1) := by norm_num
    simp [find_match, boundaryHighPrims, boundaryHighCache, rowKps, kpAt, scanGo, processEntry,
      unpack2, goodMatchesOf, mapExcept, getPt, json_to_keypoints, keypoints_to_json,
      scanStep, RANSAC_MIN_INLIERS, ORB_N_FEATURES, hratio, List.range_succ]

/-- Witness for C5: the refinement applied at concrete primitives whose
contracts hold vacuously. -/
theorem claim_early_rejection_refinement_witness :
    find_match failPrims ⟨[]⟩ "query.jpg" = find_match_no_skip failPrims ⟨[]⟩ "query.jpg" :=
  claim_early_rejection_refinement.1 failPrims ⟨[]⟩ "query.jpg"
    (fun _ _ _ _ h => Option.noConfusion h)
    (fun _ _ _ h => Except.noConfusion h)
    (fun _ _ _ _ h => Except.noConfusion h)
    (fun pe hmem => absurd hmem (List.not_mem_nil pe))

/-- C10: whenever find_match returns an identifier, that identifier is a
key of the loaded cache mapping, and the call leaves the mapping
unchanged. -/
theorem claim_result_key_membership (prims : VisionPrims) (s : Searcher)
    (q p : String) (h : find_match prims s q = .ok (some p)) :
    p ∈ s.cached_data.map Prod.fst ∧
    find_match_st prims s q = (find_match prims s q, s.cached_data) := by
  refine ⟨?_, rfl⟩
  cases himg : prims.imread q with
  | none => simp [find_match, himg] at h
  | some img =>
    cases hdcres : prims.detectAndCompute ORB_N_FEATURES
        (prims.resize RESIZE_WIDTH RESIZE_HEIGHT img) with
    | error err => simp [find_match, himg, hdcres] at h
    | ok kpodes =>
      obtain ⟨kp1, odes⟩ := kpodes
      cases odes with
      | none => simp [find_match, himg, hdcres] at h
      | some des1 =>
        simp only [find_match, himg, hdcres] at h
        by_cases hkp1e : kp1.isEmpty
        · rw [if_pos hkp1e] at h
          cases h
        · rw [if_neg hkp1e] at h
          cases hscan : scanGo prims kp1 des1 s.cached_data (none, -1) with
          | error err => rw [hscan] at h; cases h
          | ok acc =>
            rw [hscan] at h
            have hacc : acc.1 = some p := by
              injection h
            rw [scanGo_eq_scored] at hscan
            cases hscored : scoredOf prims kp1 des1 s.cached_data with
            | error e => rw [hscored] at hscan; cases hscan
            | ok l =>
              rw [hscored] at hscan
              have hfold : l.foldl scanFoldFn (none, -1) = acc := by
                injection hscan
              rw [foldl_scanStep_eq_selectBestSpec] at hfold
              cases hsel : selectBestSpec l with
              | none =>
                rw [hsel] at hfold
                rw [← hfold] at hacc
                cases hacc
              | some ps =>
                obtain ⟨p2, s2⟩ := ps
                rw [hsel] at hfold
                have hneg : (-1 : Int) < (s2 : Int) := by omega
                have hcomb : combineSel (none, -1) (some (p2, s2)) = (some p2, (s2 : Int)) := by
                  simp [combineSel, hneg]
                rw [hcomb] at hfold
                have hp2 : p2 = p := by
                  rw [← hfold] at hacc
                  injection hacc
                subst hp2
                obtain ⟨hmem, _⟩ := selectBestSpec_mem hsel
                exact scoredOf_keys hscored _ hmem

/-- Witness for C10 at the tie cache, where find_match returns the
ref_B identifier. -/
theorem claim_result_key_membership_witness :
    "ref_B.jpg" ∈ tieCache.map Prod.fst ∧
    find_match_st tiePrims ⟨tieCache⟩ "query.jpg" =
      (find_match tiePrims ⟨tieCache⟩ "query.jpg", tieCache) := by
  have h : find_match tiePrims ⟨tieCache⟩ "query.jpg" = .ok (some "ref_B.jpg") := by
    have hratio : ((0 : Rat) < 3 / 4 * 1) := by norm_num
    simp [find_match, tiePrims, tieCache, rowEntry, rowKps, kpAt, scanGo, processEntry,
      unpack2, goodMatchesOf, mapExcept, getPt, json_to_keypoints, keypoints_to_json,
      scanStep, RANSAC_MIN_INLIERS, ORB_N_FEATURES, hratio, List.range_succ]
    decide
  exact claim_result_key_membership tiePrims ⟨tieCache⟩ "query.jpg" "ref_B.jpg" h

end ImageMatchFinder
